import Mathlib

/-!
# Verification of the WhatsApp webhook ingestion service

Shallow embedding of the repository's two-stage ingestion pipeline:

* `src/utils/processor.js` — the Normalizer (`extractMessages`,
  `extractStatuses`, `mapMessage`, `mapStatus`);
* `src/index.js` — the Reconciler and read/send endpoints.  The file
  contains two concatenated revisions of the server; they are embedded
  as the `…V1` (first revision) and `…V2` (second revision) functions.
* `src/models/Message.js` (shipped unnamed) — the persisted `Message`
  schema, embedded as `PMessage`.

Conventions of the embedding:

* A JSON field that may be missing is an `Option`; `none` models
  `undefined`/`null`.  JavaScript string truthiness (`x || y` falls
  through on `undefined`, `null` and `""`) is modelled by `strTruthy`.
* A JavaScript `Date` is modelled as `Option Int`: `some ms` is a valid
  date holding `ms` milliseconds since the epoch, `none` is the Invalid
  Date produced by `new Date(NaN)`.
* A JavaScript number is modelled as the exact decimal value
  `mant * 10 ^ exp` (`JSDec`), or `NaN`/infinite (`JSNum`); `Number(…)`
  on strings is `jsStringToNumber`, covering the trimmed
  sign/decimal/exponent, `Infinity` and radix-prefixed grammars.
  IEEE-754 rounding of the underlying doubles is not modelled.
* The MongoDB collection is modelled as a `List PMessage` in insertion
  order.  `findOne` / `findOneAndUpdate` / `updateOne` act on the first
  element matching the filter, `create` appends.  The opaque `raw`
  field of the schema (never interpreted by the code) is omitted.
* Mongoose runs no validators on update operations (its default), so a
  status string outside the schema enum is written through verbatim on
  the update paths; schema defaults (`status: 'sent'`) are applied when
  an upsert inserts (`setDefaultsOnInsert`, the Mongoose default).
  `Message.create` does run validators and every write casts its
  values, so a write can be rejected; the `…E` functions model the
  resulting mid-loop 500 abort, while the plain loop functions model
  the path on which every write is accepted.
-/

namespace Whatsapp

/-- JavaScript string truthiness for an optional string field: `none` and
`some ""` are falsy.  `strTruthy x` is `some s` exactly when `x` holds a
nonempty string, so `(strTruthy a).getD d` models `a || d` and
`jsOr (strTruthy a) (strTruthy b)` models `a || b` (restricted to
string-or-absent values, which is all the source reads). -/
def strTruthy : Option String → Option String
  | none => none
  | some s => if s = "" then none else some s

/-- JavaScript `a || b` on string-or-absent values already filtered
through `strTruthy`: keep the first operand when it is truthy. -/
def jsOr (a b : Option String) : Option String :=
  match a with
  | some s => some s
  | none => b

/-- A contact entry of a payload `value` object.  The source only reads
`contact.profile?.name` and `contact.wa_id`, so the `profile` wrapper is
flattened into `profile_name`. -/
structure Contact where
  profile_name : Option String := none
  wa_id : Option String := none
deriving DecidableEq, Repr

/-- The context object handed to `mapMessage` (either the envelope
`value` or the whole payload); only its `contacts` array is read. -/
structure Ctx where
  contacts : List Contact := []
deriving DecidableEq, Repr

/-- A finite JavaScript number, modelled as the exact decimal value
`mant * 10 ^ exp`.  JSON numerals and JS numeric string literals are
decimal, so this represents every literal the program can receive
exactly; IEEE-754 double rounding is not modelled (the represented value
and the double agree except in sub-millisecond boundary cases, and the
claims' inputs are unaffected).  The representation is not normalized:
`⟨50, -1⟩` and `⟨5, 0⟩` denote the same value. -/
structure JSDec where
  mant : Int
  exp : Int
deriving DecidableEq, Repr

/-- The result of JavaScript `Number(…)`: `NaN`, an infinity (either
sign — the sign is irrelevant downstream, where only `new Date` consumes
the value and is invalid for both), or a finite decimal value. -/
inductive JSNum where
  | nan
  | infinite
  | fin (d : JSDec)
deriving DecidableEq, Repr

/-- The `timestamp` field of a payload item: absent, a JSON number, or a
JSON string. -/
inductive TsField where
  | absent
  | numVal (d : JSDec)
  | strVal (s : String)
deriving DecidableEq, Repr

/-- JavaScript truthiness of the `timestamp` field (`m.timestamp ? … : …`):
`undefined`, `0` (any representation of zero, `-0` included) and `""`
are falsy. -/
def tsTruthy : TsField → Bool
  | .absent => false
  | .numVal d => d.mant ≠ 0
  | .strVal s => s ≠ ""

/-- Whitespace for `Number`'s string trimming (the ASCII subset; the
exotic Unicode space characters are not modelled). -/
def isSpaceChar (c : Char) : Bool :=
  c = ' ' ∨ c = '\t' ∨ c = '\n' ∨ c = '\r' ∨ c = '\x0b' ∨ c = '\x0c'

/-- Trim leading and trailing whitespace from a character list. -/
def trimChars (l : List Char) : List Char :=
  ((l.dropWhile isSpaceChar).reverse.dropWhile isSpaceChar).reverse

/-- Split off the longest leading run of decimal digits. -/
def takeDigits : List Char → List Char × List Char
  | [] => ([], [])
  | c :: cs =>
    if c.isDigit then
      let (d, r) := takeDigits cs
      (c :: d, r)
    else ([], c :: cs)

/-- The numeric value of a list of decimal digits. -/
def digitsVal (l : List Char) : Nat :=
  l.foldl (fun a c => a * 10 + (c.toNat - 48)) 0

/-- Parse the exponent part of a decimal literal (after the `e`/`E`):
an optional sign followed by at least one digit. -/
def parseExpPart : List Char → Option Int
  | [] => none
  | '+' :: r =>
    if r ≠ [] ∧ r.all Char.isDigit then some (digitsVal r : Int) else none
  | '-' :: r =>
    if r ≠ [] ∧ r.all Char.isDigit then some (-(digitsVal r : Int)) else none
  | l => if l.all Char.isDigit then some (digitsVal l : Int) else none

/-- Parse an unsigned decimal literal `digits [. digits] [(e|E) exp]`
(at least one digit on some side of the point), as `Number` accepts
after an optional sign. -/
def parseUnsignedDec (l : List Char) : Option JSDec :=
  let (ip, r1) := takeDigits l
  match r1 with
  | [] => if ip = [] then none else some ⟨(digitsVal ip : Int), 0⟩
  | '.' :: r2 =>
    let (fp, r3) := takeDigits r2
    if ip = [] ∧ fp = [] then none
    else
      match r3 with
      | [] => some ⟨(digitsVal (ip ++ fp) : Int), -(fp.length : Int)⟩
      | 'e' :: r4 =>
        (parseExpPart r4).map
          (fun e => ⟨(digitsVal (ip ++ fp) : Int), e - fp.length⟩)
      | 'E' :: r4 =>
        (parseExpPart r4).map
          (fun e => ⟨(digitsVal (ip ++ fp) : Int), e - fp.length⟩)
      | _ => none
  | 'e' :: r2 =>
    if ip = [] then none
    else (parseExpPart r2).map (fun e => ⟨(digitsVal ip : Int), e⟩)
  | 'E' :: r2 =>
    if ip = [] then none
    else (parseExpPart r2).map (fun e => ⟨(digitsVal ip : Int), e⟩)
  | _ => none

/-- Value of a hexadecimal digit, if `c` is one. -/
def hexDigit? (c : Char) : Option Nat :=
  if c.isDigit then some (c.toNat - 48)
  else if 'a' ≤ c ∧ c ≤ 'f' then some (c.toNat - 87)
  else if 'A' ≤ c ∧ c ≤ 'F' then some (c.toNat - 55)
  else none

/-- Value of an octal digit, if `c` is one. -/
def octDigit? (c : Char) : Option Nat :=
  if '0' ≤ c ∧ c ≤ '7' then some (c.toNat - 48) else none

/-- Value of a binary digit, if `c` is one. -/
def binDigit? (c : Char) : Option Nat :=
  if c = '0' then some 0 else if c = '1' then some 1 else none

/-- Value of a nonempty digit list in base `b`; `none` when empty or any
character is not a digit of that base. -/
def baseVal (b : Nat) (f : Char → Option Nat) : List Char → Option Nat
  | [] => none
  | l =>
    l.foldl
      (fun acc c =>
        match acc, f c with
        | some a, some d => some (a * b + d)
        | _, _ => none)
      (some 0)

/-- After an optional sign `Number` accepts only `Infinity` or a decimal
literal (a sign before a radix-prefixed literal is `NaN`). -/
def parseAfterSign (r : List Char) : JSNum :=
  if r = "Infinity".data then .infinite
  else
    match parseUnsignedDec r with
    | some d => .fin d
    | none => .nan

/-- JavaScript `Number(string)`: trim whitespace; empty means `0`;
optional sign with `Infinity` or a decimal literal; or an unsigned
`0x`/`0o`/`0b` radix literal; anything else is `NaN`. -/
def jsStringToNumber (s : String) : JSNum :=
  match trimChars s.data with
  | [] => .fin ⟨0, 0⟩
  | '+' :: r => parseAfterSign r
  | '-' :: r =>
    match parseAfterSign r with
    | .fin d => .fin ⟨-d.mant, d.exp⟩
    | .infinite => .infinite
    | .nan => .nan
  | '0' :: 'x' :: r =>
    match baseVal 16 hexDigit? r with
    | some n => .fin ⟨(n : Int), 0⟩
    | none => .nan
  | '0' :: 'X' :: r =>
    match baseVal 16 hexDigit? r with
    | some n => .fin ⟨(n : Int), 0⟩
    | none => .nan
  | '0' :: 'o' :: r =>
    match baseVal 8 octDigit? r with
    | some n => .fin ⟨(n : Int), 0⟩
    | none => .nan
  | '0' :: 'O' :: r =>
    match baseVal 8 octDigit? r with
    | some n => .fin ⟨(n : Int), 0⟩
    | none => .nan
  | '0' :: 'b' :: r =>
    match baseVal 2 binDigit? r with
    | some n => .fin ⟨(n : Int), 0⟩
    | none => .nan
  | '0' :: 'B' :: r =>
    match baseVal 2 binDigit? r with
    | some n => .fin ⟨(n : Int), 0⟩
    | none => .nan
  | l => parseAfterSign l

/-- `Number(…)` applied to the `timestamp` field (`Number(undefined)` is
`NaN`; a JSON number is itself; a string goes through string
conversion). -/
def tsNumber : TsField → JSNum
  | .absent => .nan
  | .numVal d => .fin d
  | .strVal s => jsStringToNumber s

/-- Multiplication by `1000` (`Number(m.timestamp) * 1000`): exact on the
decimal exponent; `NaN` and infinities propagate. -/
def jsMul1000 : JSNum → JSNum
  | .nan => .nan
  | .infinite => .infinite
  | .fin d => .fin ⟨d.mant, d.exp + 3⟩

/-- Ten to a natural power, as an integer. -/
def tenPow (k : Nat) : Int := ((10 ^ k : Nat) : Int)

/-- Truncation toward zero of the value `mant * 10 ^ exp`
(ECMAScript's `ToIntegerOrInfinity` inside `TimeClip`); for a negative
exponent, integer division toward zero by the corresponding power of
ten. -/
def JSDec.trunc (d : JSDec) : Int :=
  if 0 ≤ d.exp then d.mant * tenPow d.exp.toNat
  else Int.tdiv d.mant (tenPow (-d.exp).toNat)

/-- Whether `|mant * 10 ^ exp| ≤ bound`, computed exactly on
integers. -/
def JSDec.absLe (d : JSDec) (bound : Nat) : Bool :=
  if 0 ≤ d.exp then d.mant.natAbs * 10 ^ d.exp.toNat ≤ bound
  else d.mant.natAbs ≤ bound * 10 ^ (-d.exp).toNat

/-- ECMAScript `TimeClip` bound: a time value beyond
`8.64e15` milliseconds from the epoch makes the `Date` invalid. -/
def timeClipMax : Nat := 8640000000000000

/-- `new Date(x)` for a numeric argument: invalid (`none`) on `NaN`, an
infinity, or a finite value outside the `TimeClip` range; otherwise the
truncated millisecond count. -/
def jsDateOf : JSNum → Option Int
  | .nan => none
  | .infinite => none
  | .fin d => if d.absLe timeClipMax then some d.trunc else none

/-- A raw message item as it appears in a payload.  `m.text?.body` is
flattened into `text_body` and `m.context?.id` into `context_id`; `from`
is spelled `from_` (Lean keyword). -/
structure MsgItem where
  id : Option String := none
  message_id : Option String := none
  context_id : Option String := none
  from_ : Option String := none
  to_ : Option String := none
  text_body : Option String := none
  body : Option String := none
  type : Option String := none
  timestamp : TsField := .absent
deriving DecidableEq, Repr

/-- The normalized message record returned by `mapMessage`.
`timestamp : Option Int` is the JS `Date` (see module docstring); the
`raw` field (the original item, never interpreted) is omitted. -/
structure MMessage where
  id : Option String
  meta_msg_id : Option String
  wa_id : String
  from_ : String
  to_ : String
  name : String
  number : String
  body : String
  type : String
  timestamp : Option Int
deriving DecidableEq, Repr

/-- `mapMessage(m, ctx)` from `src/utils/processor.js`. -/
def mapMessage (now : Int) (m : MsgItem) (ctx : Ctx) : MMessage :=
  { id := jsOr (strTruthy m.id) (strTruthy m.message_id)
  , meta_msg_id := strTruthy m.context_id
  , wa_id := (jsOr (strTruthy m.from_) (strTruthy m.to_)).getD ""
  , from_ := (strTruthy m.from_).getD ""
  , to_ := (strTruthy m.to_).getD ""
  , name := (strTruthy (ctx.contacts.head?.bind Contact.profile_name)).getD ""
  , number := (strTruthy (ctx.contacts.head?.bind Contact.wa_id)).getD ""
  , body := (jsOr (strTruthy m.text_body) (strTruthy m.body)).getD ""
  , type := (strTruthy m.type).getD "text"
  , timestamp :=
      if tsTruthy m.timestamp then jsDateOf (jsMul1000 (tsNumber m.timestamp))
      else some now }

/-- A raw status item as it appears in a payload. -/
structure StatusItem where
  id : Option String := none
  message_id : Option String := none
  meta_msg_id : Option String := none
  recipient_id : Option String := none
  status : Option String := none
deriving DecidableEq, Repr

/-- The normalized status record returned by `mapStatus` (the opaque
`raw` field omitted). -/
structure MStatus where
  id : Option String
  meta_msg_id : Option String
  wa_id : String
  status : String
deriving DecidableEq, Repr

/-- `mapStatus(s)` from `src/utils/processor.js`. -/
def mapStatus (s : StatusItem) : MStatus :=
  { id := jsOr (strTruthy s.id) (strTruthy s.message_id)
  , meta_msg_id := strTruthy s.meta_msg_id
  , wa_id := (strTruthy s.recipient_id).getD ""
  , status := (strTruthy s.status).getD "unknown" }

/-- A `value` envelope object (`change.value`). -/
structure Value where
  messages : Option (List MsgItem) := none
  statuses : Option (List StatusItem) := none
  contacts : List Contact := []
deriving DecidableEq, Repr

/-- A `change` object (`entry[i].changes[j]`). -/
structure Change where
  value : Option Value := none
deriving DecidableEq, Repr

/-- An `entry` object. -/
structure Entry where
  changes : Option (List Change) := none
deriving DecidableEq, Repr

/-- The provider-proprietary wrapper: `payload.metaData`. -/
structure MetaData where
  entry : Option (List Entry) := none
deriving DecidableEq, Repr

/-- A webhook payload.  An `Option (List _)` field is `some` exactly when
the corresponding JSON field is an array (`Array.isArray`). -/
structure Payload where
  entry : Option (List Entry) := none
  metaData : Option MetaData := none
  messages : Option (List MsgItem) := none
  statuses : Option (List StatusItem) := none
  contacts : List Contact := []
deriving DecidableEq, Repr

/-- Context taken from an envelope `value` object. -/
def ctxOfValue (v : Value) : Ctx := ⟨v.contacts⟩

/-- Context taken from the payload itself (the flat-array shape passes
`payload` as `ctx`). -/
def ctxOfPayload (p : Payload) : Ctx := ⟨p.contacts⟩

/-- The nested `entry[].changes[].value.messages[]` traversal shared by
the standard and the `metaData` shapes, accumulating `forEach`-style
pushes.  Pairs each item with its enclosing `value` context. -/
def entryMsgFold (es : List Entry) (acc : List (MsgItem × Ctx)) :
    List (MsgItem × Ctx) :=
  es.foldl (fun a e =>
    (e.changes.getD []).foldl (fun a c =>
      let v := c.value.getD {}
      (v.messages.getD []).foldl (fun a m => a ++ [(m, ctxOfValue v)]) a) a) acc

/-- The items visited by `extractMessages`, with their contexts, in push
order: the `entry[]` shape, then the `metaData.entry[]` shape, then the
flat `messages[]` array. -/
def msgItems (p : Payload) : List (MsgItem × Ctx) :=
  let a0 : List (MsgItem × Ctx) := []
  let a1 := match p.entry with
    | some es => entryMsgFold es a0
    | none => a0
  let a2 := match p.metaData with
    | some md => match md.entry with
      | some es => entryMsgFold es a1
      | none => a1
    | none => a1
  match p.messages with
  | some ms => ms.foldl (fun a m => a ++ [(m, ctxOfPayload p)]) a2
  | none => a2

/-- `extractMessages(payload)` from `src/utils/processor.js`: each pushed
element is `mapMessage(m, ctx)`, so the push traversal factors as a map
over `msgItems`. -/
def extractMessages (now : Int) (p : Payload) : List MMessage :=
  (msgItems p).map (fun ic => mapMessage now ic.1 ic.2)

/-- The nested `entry[].changes[].value.statuses[]` traversal shared by
the standard and the `metaData` shapes. -/
def entryStFold (es : List Entry) (acc : List StatusItem) : List StatusItem :=
  es.foldl (fun a e =>
    (e.changes.getD []).foldl (fun a c =>
      let v := c.value.getD {}
      (v.statuses.getD []).foldl (fun a s => a ++ [s]) a) a) acc

/-- The status items visited by `extractStatuses`, in push order. -/
def statusItems (p : Payload) : List StatusItem :=
  let a0 : List StatusItem := []
  let a1 := match p.entry with
    | some es => entryStFold es a0
    | none => a0
  let a2 := match p.metaData with
    | some md => match md.entry with
      | some es => entryStFold es a1
      | none => a1
    | none => a1
  match p.statuses with
  | some ss => ss.foldl (fun a s => a ++ [s]) a2
  | none => a2

/-- `extractStatuses(payload)` from `src/utils/processor.js`. -/
def extractStatuses (p : Payload) : List MStatus :=
  (statusItems p).map mapStatus

/-! ## The persisted store (`src/models/Message.js` and MongoDB) -/

/-- A persisted `Message` document (the `processed_messages` collection).
Fields follow `messageSchema`; `name` and `number` are optional schema
strings (absent on documents created by `/send/:wa_id`), `timestamp` is
the JS `Date`, and the opaque `raw` field is omitted. -/
structure PMessage where
  message_id : String
  meta_msg_id : Option String
  wa_id : String
  from_ : String
  to_ : String
  name : Option String
  number : Option String
  body : String
  type : String
  timestamp : Option Int
  status : String
deriving DecidableEq, Repr

/-- The MongoDB collection, as a list of documents in insertion order. -/
abbrev Store := List PMessage

/-- Whether a document with the given `message_id` exists
(`Message.findOne({ message_id }) !== null`). -/
def hasMsg (st : Store) (id : String) : Bool :=
  st.any (fun m => m.message_id = id)

/-- The first document matching `{ message_id: id }`, as MongoDB's
`findOne` returns it. -/
def firstWith (st : Store) (id : String) : Option PMessage :=
  st.find? (fun m => m.message_id = id)

/-- The `status` field of the first document matching `id`. -/
def statusFirst (st : Store) (id : String) : Option String :=
  (firstWith st id).map PMessage.status

/-- `findOneAndUpdate({ message_id: id }, { status: v })` /
`updateOne({ message_id: id }, { $set: { status: v } })`: update the
`status` of the first matching document, leave the store unchanged when
none matches. -/
def setStatus : Store → String → String → Store
  | [], _, _ => []
  | m :: rest, id, v =>
    if m.message_id = id then { m with status := v } :: rest
    else m :: setStatus rest id v

/-! ## Webhook variant 1 (`app.post('/webhook')`, first revision) -/

/-- The document built in the first revision's message loop
(`src/index.js` lines 39–52), with `status: 'sent'`.  The loop's id
guard ensures `m.id` is a nonempty `some`, so `getD ""` never fires. -/
def docOfV1 (m : MMessage) : PMessage :=
  { message_id := m.id.getD ""
  , meta_msg_id := strTruthy m.meta_msg_id
  , wa_id := m.wa_id
  , from_ := m.from_
  , to_ := m.to_
  , name := some m.name
  , number := some m.number
  , body := m.body
  , type := m.type
  , timestamp := m.timestamp
  , status := "sent" }

/-- First revision's message loop **on the accepted-write path** (every
`create` succeeds): skip falsy ids (`if (!m.id) continue`); `findOne`
then `create` only when no document exists; count inserts.
`insertLoopV1E` below refines this with Mongoose's write rejection. -/
def insertLoopV1 : List MMessage → Store → Nat → Store × Nat
  | [], st, ins => (st, ins)
  | m :: rest, st, ins =>
    match strTruthy m.id with
    | none => insertLoopV1 rest st ins
    | some id =>
      if hasMsg st id then insertLoopV1 rest st ins
      else insertLoopV1 rest (st ++ [docOfV1 m]) (ins + 1)

/-- First revision's status loop: skip falsy ids; `findOneAndUpdate`
sets the status unconditionally on the first match and reports whether a
document matched (`if (updatedMsg) updated++`). -/
def statusLoopV1 : List MStatus → Store → Nat → Store × Nat
  | [], st, upd => (st, upd)
  | s :: rest, st, upd =>
    match strTruthy s.id with
    | none => statusLoopV1 rest st upd
    | some id =>
      statusLoopV1 rest (setStatus st id s.status)
        (if hasMsg st id then upd + 1 else upd)

/-- The aggregate result a webhook call reports: the store plus the
`inserted` and `updated` counters of the response (`{ ok, inserted,
updated }`); the code maintains no third counter. -/
structure IngestResult where
  store : Store
  inserted : Nat
  updated : Nat
deriving DecidableEq, Repr

/-- `app.post('/webhook')`, first revision, on the accepted-write path:
extract messages, run the insert loop, extract statuses, run the status
loop.  `ingestV1E` below adds the 500 abort of a rejected write. -/
def ingestV1 (now : Int) (p : Payload) (st : Store) : IngestResult :=
  let ms := extractMessages now p
  let r1 := insertLoopV1 ms st 0
  let ss := extractStatuses p
  let r2 := statusLoopV1 ss r1.1 0
  ⟨r2.1, r1.2, r2.2⟩

/-! ## Webhook variant 2 (`app.post('/webhook')`, second revision) -/

/-- The fields the second revision's upsert `$set` writes: the spread
`{ message_id: m.id, meta_msg_id: …, wa_id: …, ...m }` contributes the
mapped record's own fields (its extra `id` key is stripped by Mongoose
strict mode); `status` is not among them. -/
def contentUpdate (pm : PMessage) (m : MMessage) : PMessage :=
  { pm with
    message_id := m.id.getD ""
  , meta_msg_id := m.meta_msg_id
  , wa_id := m.wa_id
  , from_ := m.from_
  , to_ := m.to_
  , name := some m.name
  , number := some m.number
  , body := m.body
  , type := m.type
  , timestamp := m.timestamp }

/-- `updateOne({ message_id }, { $set: doc })` on an existing document,
once the `$set` document has cast: rewrite the content fields of the
first match, keep its `status`.  (The Date-cast rejection of an invalid
`timestamp` is modelled in `insertLoopV2E`, which guards this call.) -/
def setContent : Store → MMessage → Store
  | [], _ => []
  | pm :: rest, m =>
    if pm.message_id = m.id.getD "" then contentUpdate pm m :: rest
    else pm :: setContent rest m

/-- The document an upsert inserts when no match exists: the `$set`
fields plus the schema default `status: 'sent'`
(`setDefaultsOnInsert`). -/
def docOfV2 (m : MMessage) : PMessage :=
  { message_id := m.id.getD ""
  , meta_msg_id := m.meta_msg_id
  , wa_id := m.wa_id
  , from_ := m.from_
  , to_ := m.to_
  , name := some m.name
  , number := some m.number
  , body := m.body
  , type := m.type
  , timestamp := m.timestamp
  , status := "sent" }

/-- Second revision's message loop **on the accepted-write path** (every
upsert casts): skip falsy ids, upsert by `message_id`, and increment
`inserted` on every processed item whether the upsert inserted or
updated.  `insertLoopV2E` below refines this with the cast
rejection. -/
def insertLoopV2 : List MMessage → Store → Nat → Store × Nat
  | [], st, ins => (st, ins)
  | m :: rest, st, ins =>
    match strTruthy m.id with
    | none => insertLoopV2 rest st ins
    | some id =>
      insertLoopV2 rest
        (if hasMsg st id then setContent st m else st ++ [docOfV2 m])
        (ins + 1)

/-- Second revision's status loop: skip falsy ids, `updateOne` the
status (no upsert), and increment `updated` unconditionally — also when
no document matched. -/
def statusLoopV2 : List MStatus → Store → Nat → Store × Nat
  | [], st, upd => (st, upd)
  | s :: rest, st, upd =>
    match strTruthy s.id with
    | none => statusLoopV2 rest st upd
    | some id => statusLoopV2 rest (setStatus st id s.status) (upd + 1)

/-- `app.post('/webhook')`, second revision, on the accepted-write path.
The counters are computed (and logged) but the HTTP response carries
only `{ ok: true }`.  `ingestV2E` below adds the 500 abort. -/
def ingestV2 (now : Int) (p : Payload) (st : Store) : IngestResult :=
  let ms := extractMessages now p
  let r1 := insertLoopV2 ms st 0
  let ss := extractStatuses p
  let r2 := statusLoopV2 ss r1.1 0
  ⟨r2.1, r1.2, r2.2⟩

/-! ## Mongoose write rejection (validation and casting)

The loops above model the path on which every store write is accepted.
Mongoose can reject a write, and the webhook handlers wrap the whole
loop in one `try`/`catch`, so a single rejection aborts the request
mid-loop with HTTP 500 (already-performed writes remain in the store;
nothing after the failing record runs).  The rejections the schema can
produce on these paths:

* `Message.create` (first revision) runs validators: `body` is
  `required: true` and Mongoose's required check fails on the empty
  string (every non-text message maps to `body = ''`); casting an
  Invalid `Date` into `timestamp` fails; the `status` enum is validated
  (always `'sent'` here).
* `updateOne` (second revision, with or without upsert) runs **no**
  validators by default — `required` and the enum are not enforced — but
  it still casts the `$set` document, so an Invalid-`Date` `timestamp`
  is rejected.
* The status-only updates (`{ status: s.status }`) cast a plain string
  and cannot fail.

The `…E` functions model these error paths. -/

/-- Whether `Message.create` accepts a document: nonempty `body`
(required check), a castable (valid) `timestamp`, and `status` within
the schema enum. -/
def validDoc (d : PMessage) : Bool :=
  d.body ≠ "" && d.timestamp.isSome
    && ["sent", "delivered", "read", "unknown"].contains d.status

/-- Whether the second revision's `$set` document casts: only the
`timestamp` field can fail (an Invalid `Date`). -/
def updateCastOk (m : MMessage) : Bool :=
  m.timestamp.isSome

/-- Outcome of a message loop that may be aborted by a rejected write:
the final store and count, or the store at the moment of the abort. -/
inductive LoopOut where
  | ok (store : Store) (count : Nat)
  | err (store : Store)
deriving DecidableEq, Repr

/-- Outcome of a webhook call: the `{ ok, inserted, updated }` result,
or an HTTP 500 abort with the store as the aborted loop left it. -/
inductive WebhookOut where
  | ok (r : IngestResult)
  | err (store : Store)
deriving DecidableEq, Repr

/-- The store after a webhook call, successful or aborted. -/
def WebhookOut.store : WebhookOut → Store
  | .ok r => r.store
  | .err st => st

/-- The reported `inserted` count (`none` on a 500, which reports no
counts). -/
def WebhookOut.insertedCount : WebhookOut → Option Nat
  | .ok r => some r.inserted
  | .err _ => none

/-- The reported `updated` count (`none` on a 500). -/
def WebhookOut.updatedCount : WebhookOut → Option Nat
  | .ok r => some r.updated
  | .err _ => none

/-- First revision's message loop with `Message.create` rejection:
existence is checked first (`findOne`), so a duplicate is skipped before
any validation; a new document is validated and an invalid one aborts
the loop. -/
def insertLoopV1E : List MMessage → Store → Nat → LoopOut
  | [], st, ins => .ok st ins
  | m :: rest, st, ins =>
    match strTruthy m.id with
    | none => insertLoopV1E rest st ins
    | some id =>
      if hasMsg st id then insertLoopV1E rest st ins
      else if validDoc (docOfV1 m) then
        insertLoopV1E rest (st ++ [docOfV1 m]) (ins + 1)
      else .err st

/-- `app.post('/webhook')`, first revision, with the error path: an
aborted message loop returns 500 and the status loop never runs (the
status loop itself cannot fail). -/
def ingestV1E (now : Int) (p : Payload) (st : Store) : WebhookOut :=
  match insertLoopV1E (extractMessages now p) st 0 with
  | .err st' => .err st'
  | .ok st1 ins =>
    let r2 := statusLoopV1 (extractStatuses p) st1 0
    .ok ⟨r2.1, ins, r2.2⟩

/-- Second revision's message loop with the upsert's cast rejection: the
`$set` document is cast before the write, so an Invalid-`Date`
timestamp aborts whether or not a match exists. -/
def insertLoopV2E : List MMessage → Store → Nat → LoopOut
  | [], st, ins => .ok st ins
  | m :: rest, st, ins =>
    match strTruthy m.id with
    | none => insertLoopV2E rest st ins
    | some id =>
      if updateCastOk m then
        insertLoopV2E rest
          (if hasMsg st id then setContent st m else st ++ [docOfV2 m])
          (ins + 1)
      else .err st

/-- `app.post('/webhook')`, second revision, with the error path. -/
def ingestV2E (now : Int) (p : Payload) (st : Store) : WebhookOut :=
  match insertLoopV2E (extractMessages now p) st 0 with
  | .err st' => .err st'
  | .ok st1 ins =>
    let r2 := statusLoopV2 (extractStatuses p) st1 0
    .ok ⟨r2.1, ins, r2.2⟩

/-! ## Outbound send (`POST /conversations/:wa_id/messages` and `POST /send/:wa_id`) -/

/-- The outgoing document both send routes create: synthetic
`out-(uuid)` identifier, `from: 'me'`, `to: wa_id`, `type: 'text'`,
`timestamp: new Date()`, `status: 'sent'`. -/
def outMessage (wa_id : String) (b : String) (name : Option String)
    (uuid : String) (now : Int) : PMessage :=
  { message_id := "out-" ++ uuid
  , meta_msg_id := none
  , wa_id := wa_id
  , from_ := "me"
  , to_ := wa_id
  , name := name
  , number := none
  , body := b
  , type := "text"
  , timestamp := some now
  , status := "sent" }

/-- `app.post('/conversations/:wa_id/messages')` (first revision):
reject with HTTP 400 — persisting nothing, modelled as `none` — exactly
when `!bodyText`, i.e. when the body is absent or the empty string;
otherwise create the outgoing document.  (The delayed status-progression
timers it also schedules are outside the synchronous result.) -/
def sendV1 (wa_id : String) (body name : Option String) (uuid : String)
    (now : Int) (st : Store) : Option (Store × PMessage) :=
  match strTruthy body with
  | none => none
  | some b =>
    let msg := outMessage wa_id b name uuid now
    some (st ++ [msg], msg)

/-- `app.post('/send/:wa_id')` (second revision): identical `!body`
validation; the created document carries no `name` field. -/
def sendV2 (wa_id : String) (body : Option String) (uuid : String)
    (now : Int) (st : Store) : Option (Store × PMessage) :=
  match strTruthy body with
  | none => none
  | some b =>
    let msg := outMessage wa_id b none uuid now
    some (st ++ [msg], msg)

/-! ## Conversation listing (`GET /conversations`) -/

/-- The sort key `$sort` uses on `timestamp`; stored documents always
hold valid dates (MongoDB rejects an invalid `Date`), so the `getD`
branch is inert on reachable stores. -/
def tsVal (m : PMessage) : Int :=
  m.timestamp.getD 0

/-- Distinct `wa_id` values in order of first appearance — the groups
`$group: { _id: "$wa_id" }` forms while scanning the collection. -/
def firstKeysAux : Store → List String → List String
  | [], _ => []
  | m :: rest, seen =>
    if m.wa_id ∈ seen then firstKeysAux rest seen
    else m.wa_id :: firstKeysAux rest (m.wa_id :: seen)

/-- Distinct `wa_id` values of a store. -/
def firstKeys (st : Store) : List String :=
  firstKeysAux st []

/-- `$last: "$$ROOT"` over an unsorted pipeline: the last document of
the group in collection (insertion) order. -/
def lastFor (st : Store) (g : String) : Option PMessage :=
  st.foldl (fun acc m => if m.wa_id = g then some m else acc) none

/-- First revision's `GET /conversations` aggregation: group by `wa_id`
taking `$last: "$$ROOT"` with no preceding `$sort`, then sort the
groups by `lastMessage.timestamp` descending. -/
def conversationsV1 (st : Store) : List (String × PMessage) :=
  List.insertionSort (fun a b => tsVal b.2 ≤ tsVal a.2)
    ((firstKeys st).filterMap (fun g => (lastFor st g).map (fun m => (g, m))))

/-- The `$group`/`$first` step of the second revision: keep the first
document of each `wa_id` encountered while scanning the (sorted)
pipeline. -/
def dedupByKey : Store → List String → Store
  | [], _ => []
  | m :: rest, seen =>
    if m.wa_id ∈ seen then dedupByKey rest seen
    else m :: dedupByKey rest (m.wa_id :: seen)

/-- Second revision's `GET /conversations` aggregation:
`$sort { timestamp: -1 }`, `$group` taking `$first: "$$ROOT"`, project
to `(wa_id, lastMessage)`, then `$sort` the groups by
`lastMessage.timestamp` descending. -/
def conversationsV2 (st : Store) : List (String × PMessage) :=
  let sorted := List.insertionSort (fun a b => tsVal b ≤ tsVal a) st
  List.insertionSort (fun a b => tsVal b.2 ≤ tsVal a.2)
    ((dedupByKey sorted []).map (fun m => (m.wa_id, m)))

/-! ## Verification auxiliaries

Derived notions used to state and prove the theorems; they introduce no
behaviour of their own. -/

/-- The `(id, status)` pairs the status loops act on: one per status
record with a truthy id. -/
def stPairs (l : List MStatus) : List (String × String) :=
  l.filterMap (fun s => (strTruthy s.id).map (fun id => (id, s.status)))

/-- The store transformation both status loops perform. -/
def pairsApply (l : List (String × String)) (st : Store) : Store :=
  l.foldl (fun st p => setStatus st p.1 p.2) st

/-- The last status value a pair list assigns to a given id, if any. -/
def lastVal (l : List (String × String)) (x : String) : Option String :=
  l.foldl (fun acc p => if x = p.1 then some p.2 else acc) none

/-- How many status records of a list the first revision's status loop
reports as updated against a store: those with a truthy id matching some
document (membership is unchanged by status writes, so the count
depends only on the initial store). -/
def updCount (l : List MStatus) (st : Store) : Nat :=
  (l.filter (fun s =>
    match strTruthy s.id with
    | some id => hasMsg st id
    | none => false)).length

/-- Erase an id from a partial status assignment. -/
def zeroF (f : String → Option String) (id : String) : String → Option String :=
  fun x => if x = id then none else f x

/-- Extend a partial status assignment with a fallback pair; existing
assignments win. -/
def extendF (f : String → Option String) (id v : String) :
    String → Option String :=
  fun x => match f x with
    | some w => some w
    | none => if x = id then some v else none

/-- Apply a partial status assignment to the first document of each
`message_id`, leaving later duplicates untouched. -/
def applyF : (String → Option String) → Store → Store
  | _, [] => []
  | f, m :: rest =>
    (match f m.message_id with
      | some v => { m with status := v }
      | none => m) :: applyF (zeroF f m.message_id) rest

/-- The message items (with context) one `change` contributes. -/
def changeItems (c : Change) : List (MsgItem × Ctx) :=
  let v := c.value.getD {}
  (v.messages.getD []).map (fun m => (m, ctxOfValue v))

/-- The message items (with context) one `entry` contributes. -/
def entryItems (e : Entry) : List (MsgItem × Ctx) :=
  (e.changes.getD []).flatMap changeItems

/-- The status items one `change` contributes. -/
def stChangeItems (c : Change) : List StatusItem :=
  (c.value.getD {}).statuses.getD []

/-- The status items one `entry` contributes. -/
def entryStItems (e : Entry) : List StatusItem :=
  (e.changes.getD []).flatMap stChangeItems

/-! Spec-side descriptions of the three extraction shapes, written after
the specification's words ("a payload matching two shapes simultaneously
yields records from both … each shape's items in source order"), to be
compared with the source-translated `extractMessages`/`extractStatuses`. -/

/-- Records contributed by the standard `entry[].changes[].value`
shape. -/
def specEntryMessages (now : Int) (p : Payload) : List MMessage :=
  match p.entry with
  | some es =>
    es.flatMap (fun e =>
      (e.changes.getD []).flatMap (fun c =>
        let v := c.value.getD {}
        (v.messages.getD []).map (fun m => mapMessage now m (ctxOfValue v))))
  | none => []

/-- Records contributed by the `metaData.entry[]` wrapper shape. -/
def specMetaMessages (now : Int) (p : Payload) : List MMessage :=
  match p.metaData with
  | some md =>
    match md.entry with
    | some es =>
      es.flatMap (fun e =>
        (e.changes.getD []).flatMap (fun c =>
          let v := c.value.getD {}
          (v.messages.getD []).map (fun m => mapMessage now m (ctxOfValue v))))
    | none => []
  | none => []

/-- Records contributed by the flat `messages[]` shape. -/
def specFlatMessages (now : Int) (p : Payload) : List MMessage :=
  match p.messages with
  | some ms => ms.map (fun m => mapMessage now m (ctxOfPayload p))
  | none => []

/-- Status records contributed by the standard `entry[]` shape. -/
def specEntryStatuses (p : Payload) : List MStatus :=
  match p.entry with
  | some es =>
    es.flatMap (fun e =>
      (e.changes.getD []).flatMap (fun c =>
        ((c.value.getD {}).statuses.getD []).map mapStatus))
  | none => []

/-- Status records contributed by the `metaData.entry[]` shape. -/
def specMetaStatuses (p : Payload) : List MStatus :=
  match p.metaData with
  | some md =>
    match md.entry with
    | some es =>
      es.flatMap (fun e =>
        (e.changes.getD []).flatMap (fun c =>
          ((c.value.getD {}).statuses.getD []).map mapStatus))
    | none => []
  | none => []

/-- Status records contributed by the flat `statuses[]` shape. -/
def specFlatStatuses (p : Payload) : List MStatus :=
  match p.statuses with
  | some ss => ss.map mapStatus
  | none => []

/-! Decidability and order instances for the sort relations used by the
conversation aggregations. -/

instance : IsTotal PMessage (fun a b => tsVal b ≤ tsVal a) :=
  ⟨fun a b => le_total (tsVal b) (tsVal a)⟩

instance : IsTrans PMessage (fun a b => tsVal b ≤ tsVal a) :=
  ⟨fun _ _ _ hab hbc => le_trans hbc hab⟩

instance : IsTotal (String × PMessage) (fun a b => tsVal b.2 ≤ tsVal a.2) :=
  ⟨fun a b => le_total (tsVal b.2) (tsVal a.2)⟩

instance : IsTrans (String × PMessage) (fun a b => tsVal b.2 ≤ tsVal a.2) :=
  ⟨fun _ _ _ hab hbc => le_trans hbc hab⟩

/-! ## Concrete inputs used by counterexamples and witnesses -/

/-- A well-formed inbound message item with id `m1`. -/
def itemM1 : MsgItem :=
  { id := some "m1", from_ := some "u1", text_body := some "hello"
  , timestamp := .numVal ⟨5, 0⟩ }

/-- The same logical message redelivered with different content. -/
def itemM1b : MsgItem :=
  { id := some "m1", from_ := some "u1", text_body := some "bye"
  , timestamp := .numVal ⟨7, 0⟩ }

/-- A message item whose `timestamp` is a present but non-numeric
string. -/
def itemBadTs : MsgItem :=
  { id := some "m1", from_ := some "u1", timestamp := .strVal "soon" }

/-- Status items for `m1` in lifecycle order `sent`, `read`,
`delivered`. -/
def stSent : StatusItem := { id := some "m1", status := some "sent" }

/-- Status item carrying `read`. -/
def stRead : StatusItem := { id := some "m1", status := some "read" }

/-- Status item carrying `delivered`. -/
def stDelivered : StatusItem := { id := some "m1", status := some "delivered" }

/-- Status item referencing an id no message carries. -/
def stUnknownRef : StatusItem := { id := some "zzz", status := some "read" }

/-- Payload delivering message `m1` and then statuses in arrival order
`[sent, read, delivered]` (the claim C1 scenario). -/
def payloadC1 : Payload :=
  { messages := some [itemM1], statuses := some [stSent, stRead, stDelivered] }

/-- Payload delivering just message `m1`. -/
def payloadMsgOnly : Payload := { messages := some [itemM1] }

/-- Payload redelivering `m1` with different content. -/
def payloadMsgOnlyB : Payload := { messages := some [itemM1b] }

/-- Payload delivering only a status that references an unknown
message. -/
def payloadC7 : Payload := { statuses := some [stUnknownRef] }

/-- A persisted document for `m1` whose status has advanced to
`read`. -/
def pmSeed : PMessage :=
  { message_id := "m1", meta_msg_id := none, wa_id := "u1", from_ := "u1"
  , to_ := "", name := some "", number := some "", body := "hello"
  , type := "text", timestamp := some 5000, status := "read" }

/-- A duplicate delivery of `m1` as a normalized record with new
content. -/
def mmDup : MMessage :=
  { id := some "m1", meta_msg_id := none, wa_id := "u1", from_ := "u1"
  , to_ := "", name := "", number := "", body := "bye", type := "text"
  , timestamp := some 7000 }

/-- Conversation `A`: message stored first, carrying the greater
timestamp `t = 5`. -/
def pmA5 : PMessage :=
  { message_id := "a1", meta_msg_id := none, wa_id := "A", from_ := "A"
  , to_ := "", name := none, number := none, body := "x", type := "text"
  , timestamp := some 5, status := "sent" }

/-- Conversation `A`: message stored second, carrying the smaller
timestamp `t = 3`. -/
def pmA3 : PMessage :=
  { message_id := "a2", meta_msg_id := none, wa_id := "A", from_ := "A"
  , to_ := "", name := none, number := none, body := "y", type := "text"
  , timestamp := some 3, status := "sent" }

/-! ## Basic lemmas -/

theorem strTruthy_eq_some {o : Option String} {v : String} :
    strTruthy o = some v ↔ o = some v ∧ v ≠ "" := by
  cases o with
  | none => simp [strTruthy]
  | some s =>
    by_cases h : s = ""
    · subst h
      simp only [strTruthy, if_pos rfl, Option.some.injEq]
      constructor
      · intro hc; simp at hc
      · rintro ⟨rfl, hne⟩; exact absurd rfl hne
    · simp only [strTruthy, if_neg h, Option.some.injEq]
      constructor
      · rintro rfl; exact ⟨rfl, h⟩
      · rintro ⟨hv, _⟩; exact hv

theorem message_id_status_set (m : PMessage) (v : String) :
    ({ m with status := v } : PMessage).message_id = m.message_id := rfl

theorem status_set_set (m : PMessage) (v w : String) :
    ({ { m with status := v } with status := w } : PMessage)
      = { m with status := w } := by
  cases m; rfl

theorem hasMsg_cons (m : PMessage) (rest : Store) (j : String) :
    hasMsg (m :: rest) j = (decide (m.message_id = j) || hasMsg rest j) := by
  simp [hasMsg]

theorem hasMsg_append_one (st : Store) (d : PMessage) (j : String) :
    hasMsg (st ++ [d]) j = (hasMsg st j || decide (d.message_id = j)) := by
  simp [hasMsg]

theorem hasMsg_setStatus (st : Store) (id v j : String) :
    hasMsg (setStatus st id v) j = hasMsg st j := by
  induction st with
  | nil => rfl
  | cons m rest ih =>
    by_cases hm : m.message_id = id
    · simp [setStatus, hm, hasMsg_cons]
    · simp [setStatus, hm, hasMsg_cons, ih]

theorem setStatus_not_found (st : Store) (id v : String)
    (h : hasMsg st id = false) : setStatus st id v = st := by
  induction st with
  | nil => rfl
  | cons m rest ih =>
    rw [hasMsg_cons, Bool.or_eq_false_iff] at h
    have hm : ¬ m.message_id = id := by simpa using h.1
    simp [setStatus, hm, ih h.2]

theorem firstWith_setStatus (st : Store) (id v : String)
    (h : hasMsg st id = true) :
    firstWith (setStatus st id v) id
      = (firstWith st id).map (fun pm => { pm with status := v }) := by
  induction st with
  | nil => simp [hasMsg] at h
  | cons m rest ih =>
    by_cases hm : m.message_id = id
    · simp only [setStatus, if_pos hm, firstWith]
      rw [List.find?_cons, List.find?_cons]
      simp [hm]
    · have h2 : hasMsg rest id = true := by
        rw [hasMsg_cons, Bool.or_eq_true_iff] at h
        rcases h with h | h
        · exact absurd (of_decide_eq_true h) hm
        · exact h
      have hih := ih h2
      simp only [setStatus, if_neg hm, firstWith] at hih ⊢
      rw [List.find?_cons, List.find?_cons]
      simp [hm, hih]

theorem statusFirst_setStatus (st : Store) (id v : String)
    (h : hasMsg st id = true) :
    statusFirst (setStatus st id v) id = some v := by
  unfold statusFirst
  rw [firstWith_setStatus st id v h]
  have : (firstWith st id).isSome = true := by
    unfold firstWith
    rw [List.find?_isSome]
    unfold hasMsg at h
    rw [List.any_eq_true] at h
    obtain ⟨x, hx, hp⟩ := h
    exact ⟨x, hx, hp⟩
  obtain ⟨pm, hpm⟩ := Option.isSome_iff_exists.mp this
  rw [hpm]
  rfl

/-! ## Canonical form of the status loop (last-write-wins) -/

theorem pairsApply_nil (st : Store) : pairsApply [] st = st := rfl

theorem pairsApply_cons (p : String × String) (t : List (String × String))
    (st : Store) :
    pairsApply (p :: t) st = pairsApply t (setStatus st p.1 p.2) := rfl

theorem statusLoopV1_fst (l : List MStatus) (st : Store) (u : Nat) :
    (statusLoopV1 l st u).1 = pairsApply (stPairs l) st := by
  induction l generalizing st u with
  | nil => rfl
  | cons s rest ih =>
    cases hs : strTruthy s.id with
    | none => simp [statusLoopV1, hs, stPairs, List.filterMap_cons, ih]
    | some id =>
      simp [statusLoopV1, hs, stPairs, List.filterMap_cons, ih, pairsApply_cons]

theorem statusLoopV2_fst (l : List MStatus) (st : Store) (u : Nat) :
    (statusLoopV2 l st u).1 = pairsApply (stPairs l) st := by
  induction l generalizing st u with
  | nil => rfl
  | cons s rest ih =>
    cases hs : strTruthy s.id with
    | none => simp [statusLoopV2, hs, stPairs, List.filterMap_cons, ih]
    | some id =>
      simp [statusLoopV2, hs, stPairs, List.filterMap_cons, ih, pairsApply_cons]

theorem hasMsg_pairsApply (l : List (String × String)) (st : Store)
    (j : String) : hasMsg (pairsApply l st) j = hasMsg st j := by
  induction l generalizing st with
  | nil => rfl
  | cons p t ih => rw [pairsApply_cons, ih, hasMsg_setStatus]

theorem applyF_congr {f g : String → Option String} (st : Store)
    (h : ∀ x, f x = g x) : applyF f st = applyF g st := by
  have : f = g := funext h
  rw [this]

theorem applyF_none (f : String → Option String) (st : Store)
    (h : ∀ x, f x = none) : applyF f st = st := by
  induction st generalizing f with
  | nil => rfl
  | cons m rest ih =>
    show (match f m.message_id with
      | some v => { m with status := v }
      | none => m) :: applyF (zeroF f m.message_id) rest = m :: rest
    rw [h m.message_id]
    have hz : ∀ x, zeroF f m.message_id x = none := by
      intro x
      unfold zeroF
      by_cases hx : x = m.message_id <;> simp [hx, h]
    rw [ih _ hz]

theorem lastVal_nil (x : String) : lastVal [] x = none := rfl

theorem lastVal_foldl (l : List (String × String)) (x : String)
    (init : Option String) :
    l.foldl (fun acc p => if x = p.1 then some p.2 else acc) init
      = (lastVal l x).orElse (fun _ => init) := by
  induction l generalizing init with
  | nil => simp [lastVal]
  | cons p t ih =>
    show t.foldl _ (if x = p.1 then some p.2 else init) = _
    rw [ih]
    have hc : lastVal (p :: t) x
        = (lastVal t x).orElse (fun _ => if x = p.1 then some p.2 else none) := by
      show t.foldl _ (if x = p.1 then some p.2 else none) = _
      rw [ih]
    rw [hc]
    cases lastVal t x <;> by_cases hx : x = p.1 <;> simp [hx, Option.orElse]

theorem lastVal_cons (p : String × String) (t : List (String × String))
    (x : String) :
    lastVal (p :: t) x
      = (lastVal t x).orElse (fun _ => if x = p.1 then some p.2 else none) := by
  show t.foldl _ (if x = p.1 then some p.2 else none) = _
  rw [lastVal_foldl]

theorem zeroF_extendF_self (f : String → Option String) (id v : String) :
    zeroF (extendF f id v) id = zeroF f id := by
  funext x
  unfold zeroF extendF
  by_cases hx : x = id
  · simp [hx]
  · simp only [if_neg hx]
    cases f x <;> simp

theorem extendF_zeroF_comm (f : String → Option String) (mid id v : String)
    (h : ¬ mid = id) :
    extendF (zeroF f mid) id v = zeroF (extendF f id v) mid := by
  funext x
  unfold zeroF extendF
  by_cases hx : x = mid
  · subst hx
    simp [h]
  · simp only [if_neg hx]

theorem applyF_setStatus (f : String → Option String) (st : Store)
    (id v : String) :
    applyF f (setStatus st id v) = applyF (extendF f id v) st := by
  induction st generalizing f with
  | nil => rfl
  | cons m rest ih =>
    by_cases hm : m.message_id = id
    · subst hm
      simp only [setStatus, if_pos rfl, applyF, message_id_status_set]
      rw [zeroF_extendF_self]
      have he : extendF f m.message_id v m.message_id
          = match f m.message_id with
            | some w => some w
            | none => some v := by
        unfold extendF
        cases f m.message_id <;> simp
      rw [he]
      cases hf : f m.message_id with
      | none => simp
      | some w => simp [status_set_set]
    · simp only [setStatus, if_neg hm, applyF]
      rw [ih (zeroF f m.message_id), extendF_zeroF_comm f m.message_id id v hm]
      have he : extendF f id v m.message_id = f m.message_id := by
        unfold extendF
        simp only [if_neg hm]
        cases f m.message_id <;> simp
      rw [he]

theorem pairsApply_eq_applyF (l : List (String × String)) (st : Store) :
    pairsApply l st = applyF (lastVal l) st := by
  induction l generalizing st with
  | nil => exact (applyF_none _ _ (fun _ => rfl)).symm
  | cons p t ih =>
    rw [pairsApply_cons, ih, applyF_setStatus]
    apply applyF_congr
    intro x
    rw [lastVal_cons]
    unfold extendF
    cases lastVal t x <;> by_cases hx : x = p.1 <;> simp [hx, Option.orElse]

theorem applyF_idem (f : String → Option String) (st : Store) :
    applyF f (applyF f st) = applyF f st := by
  induction st generalizing f with
  | nil => rfl
  | cons m rest ih =>
    cases hf : f m.message_id with
    | none =>
      have e1 : applyF f (m :: rest)
          = m :: applyF (zeroF f m.message_id) rest := by
        simp only [applyF, hf]
      have e2 : applyF f (m :: applyF (zeroF f m.message_id) rest)
          = m :: applyF (zeroF f m.message_id)
              (applyF (zeroF f m.message_id) rest) := by
        simp only [applyF, hf]
      rw [e1, e2, ih]
    | some w =>
      have e1 : applyF f (m :: rest)
          = { m with status := w } :: applyF (zeroF f m.message_id) rest := by
        simp only [applyF, hf]
      have e2 : applyF f ({ m with status := w }
            :: applyF (zeroF f m.message_id) rest)
          = { m with status := w } :: applyF (zeroF f m.message_id)
              (applyF (zeroF f m.message_id) rest) := by
        simp only [applyF, message_id_status_set, hf, status_set_set]
      rw [e1, e2, ih]

theorem pairsApply_idem (l : List (String × String)) (st : Store) :
    pairsApply l (pairsApply l st) = pairsApply l st := by
  simp only [pairsApply_eq_applyF]
  exact applyF_idem _ _

/-! ## Lemmas about the insert loop and extraction -/

/-- The id of a normalized message does not depend on the normalization
instant: it is derived from the item's fields alone. -/
theorem mapMessage_id_now (n1 n2 : Int) (it : MsgItem) (c : Ctx) :
    (mapMessage n1 it c).id = (mapMessage n2 it c).id := rfl

/-! ## Lemmas about the error-aware loops and the updated count -/

theorem updCount_congr (l : List MStatus) (st st' : Store)
    (h : ∀ j, hasMsg st j = hasMsg st' j) : updCount l st = updCount l st' := by
  unfold updCount
  have hf : ∀ x ∈ l,
      (match strTruthy x.id with
        | some id => hasMsg st id
        | none => false)
      = (match strTruthy x.id with
        | some id => hasMsg st' id
        | none => false) := by
    intro x _
    cases hxs : strTruthy x.id <;> simp [hxs, h]
  rw [List.filter_congr hf]

theorem statusLoopV1_snd (l : List MStatus) (st : Store) (u : Nat) :
    (statusLoopV1 l st u).2 = u + updCount l st := by
  induction l generalizing st u with
  | nil => simp [statusLoopV1, updCount]
  | cons s rest ih =>
    cases hs : strTruthy s.id with
    | none =>
      simp only [statusLoopV1, hs]
      rw [ih]
      simp [updCount, List.filter_cons, hs]
    | some id =>
      simp only [statusLoopV1, hs]
      rw [ih]
      have hc : updCount rest (setStatus st id s.status) = updCount rest st :=
        updCount_congr _ _ _ (fun j => hasMsg_setStatus st id s.status j)
      rw [hc]
      simp only [updCount, List.filter_cons, hs]
      cases hh : hasMsg st id with
      | false => simp [hh]
      | true => simp [hh]; omega

theorem insertLoopV1E_hasMsg_mono (ms : List MMessage) (st : Store)
    (ins : Nat) (st' : Store) (ins' : Nat) (j : String)
    (h : insertLoopV1E ms st ins = LoopOut.ok st' ins')
    (hj : hasMsg st j = true) : hasMsg st' j = true := by
  induction ms generalizing st ins with
  | nil =>
    simp only [insertLoopV1E, LoopOut.ok.injEq] at h
    rw [← h.1]
    exact hj
  | cons m rest ih =>
    cases hs : strTruthy m.id with
    | none =>
      simp only [insertLoopV1E, hs] at h
      exact ih st ins h hj
    | some id =>
      simp only [insertLoopV1E, hs] at h
      by_cases hh : hasMsg st id = true
      · rw [if_pos hh] at h
        exact ih st ins h hj
      · rw [if_neg hh] at h
        by_cases hv : validDoc (docOfV1 m) = true
        · rw [if_pos hv] at h
          have hj2 : hasMsg (st ++ [docOfV1 m]) j = true := by
            rw [hasMsg_append_one, hj, Bool.true_or]
          exact ih (st ++ [docOfV1 m]) (ins + 1) h hj2
        · rw [if_neg hv] at h
          cases h

theorem insertLoopV1E_provides (ms : List MMessage) (st : Store) (ins : Nat)
    (m : MMessage) (id : String) (st' : Store) (ins' : Nat)
    (hm : m ∈ ms) (hs : strTruthy m.id = some id)
    (h : insertLoopV1E ms st ins = LoopOut.ok st' ins') :
    hasMsg st' id = true := by
  induction ms generalizing st ins with
  | nil => cases hm
  | cons m0 rest ih =>
    rcases List.mem_cons.mp hm with rfl | hmem
    · simp only [insertLoopV1E, hs] at h
      by_cases hh : hasMsg st id = true
      · rw [if_pos hh] at h
        exact insertLoopV1E_hasMsg_mono rest st ins st' ins' id h hh
      · rw [if_neg hh] at h
        by_cases hv : validDoc (docOfV1 m) = true
        · rw [if_pos hv] at h
          have hdoc : hasMsg (st ++ [docOfV1 m]) id = true := by
            rw [hasMsg_append_one]
            have hid : m.id = some id := (strTruthy_eq_some.mp hs).1
            have hmid : (docOfV1 m).message_id = id := by
              simp [docOfV1, hid]
            simp [hmid]
          exact insertLoopV1E_hasMsg_mono rest _ _ st' ins' id h hdoc
        · rw [if_neg hv] at h
          cases h
    · cases hs0 : strTruthy m0.id with
      | none =>
        simp only [insertLoopV1E, hs0] at h
        exact ih st ins hmem h
      | some id0 =>
        simp only [insertLoopV1E, hs0] at h
        by_cases hh : hasMsg st id0 = true
        · rw [if_pos hh] at h
          exact ih st ins hmem h
        · rw [if_neg hh] at h
          by_cases hv : validDoc (docOfV1 m0) = true
          · rw [if_pos hv] at h
            exact ih (st ++ [docOfV1 m0]) (ins + 1) hmem h
          · rw [if_neg hv] at h
            cases h

theorem insertLoopV1E_noop (ms : List MMessage) (st : Store) (ins : Nat)
    (h : ∀ m ∈ ms, ∀ id, strTruthy m.id = some id → hasMsg st id = true) :
    insertLoopV1E ms st ins = LoopOut.ok st ins := by
  induction ms generalizing st ins with
  | nil => rfl
  | cons m rest ih =>
    cases hs : strTruthy m.id with
    | none =>
      simp only [insertLoopV1E, hs]
      exact ih st ins
        (fun m' hm' id' hs' => h m' (List.mem_cons_of_mem _ hm') id' hs')
    | some id =>
      simp only [insertLoopV1E, hs]
      have hh : hasMsg st id = true := h m (List.mem_cons_self _ _) id hs
      rw [if_pos hh]
      exact ih st ins
        (fun m' hm' id' hs' => h m' (List.mem_cons_of_mem _ hm') id' hs')

/-! ## Further helper lemmas -/

theorem firstWith_setContent (st : Store) (m : MMessage) (id : String)
    (hid : m.id = some id) (h : hasMsg st id = true) :
    firstWith (setContent st m) id
      = (firstWith st id).map (fun pm => contentUpdate pm m) := by
  induction st with
  | nil => simp [hasMsg] at h
  | cons pm rest ih =>
    have hgd : m.id.getD "" = id := by rw [hid]; rfl
    by_cases hm : pm.message_id = id
    · have hmg : pm.message_id = m.id.getD "" := by rw [hgd]; exact hm
      simp only [setContent, if_pos hmg, firstWith]
      rw [List.find?_cons, List.find?_cons]
      have hcu : (contentUpdate pm m).message_id = id := by
        simp [contentUpdate, hgd]
      simp [hcu, hm]
    · have hmg : ¬ pm.message_id = m.id.getD "" := by rw [hgd]; exact hm
      have h2 : hasMsg rest id = true := by
        rw [hasMsg_cons, Bool.or_eq_true_iff] at h
        rcases h with h | h
        · exact absurd (of_decide_eq_true h) hm
        · exact h
      have hih := ih h2
      simp only [setContent, if_neg hmg, firstWith] at hih ⊢
      rw [List.find?_cons, List.find?_cons]
      simp [hm, hih]

/-! ## Claim C1 — status monotonicity -/

/-- C1 (amended): the status loop performs no lifecycle-rank comparison;
an incoming status is applied unconditionally whenever a message with
the referenced id exists (last write wins), so after applying statuses
in arrival order `[sent, read, delivered]` to an existing message the
persisted status is `"delivered"` — the lower-ranked late `delivered` is
not discarded. -/
theorem statusLoop_lastWriteWins (st : Store) (id : String) (hne : id ≠ "")
    (h : hasMsg st id = true) :
    statusFirst
      ((statusLoopV1 [⟨some id, none, "", "sent"⟩, ⟨some id, none, "", "read"⟩,
        ⟨some id, none, "", "delivered"⟩] st 0)).1 id = some "delivered" := by
  have hs : strTruthy (some id) = some id := strTruthy_eq_some.mpr ⟨rfl, hne⟩
  have h1 : hasMsg (setStatus st id "sent") id = true := by
    rw [hasMsg_setStatus]; exact h
  have h2 : hasMsg (setStatus (setStatus st id "sent") id "read") id = true := by
    rw [hasMsg_setStatus]; exact h1
  simp only [statusLoopV1, hs]
  exact statusFirst_setStatus _ _ _ h2

/-- Witness for C1's amended theorem at a concrete store. -/
theorem statusLoop_lastWriteWins_witness :
    statusFirst
      ((statusLoopV1 [⟨some "m1", none, "", "sent"⟩, ⟨some "m1", none, "", "read"⟩,
        ⟨some "m1", none, "", "delivered"⟩] [pmSeed] 0)).1 "m1" = some "delivered" :=
  statusLoop_lastWriteWins [pmSeed] "m1" (by decide) (by decide)

/-- C1 counterexample: ingesting `payloadC1` (message `m1`, then
statuses `[sent, read, delivered]` in that arrival order) through the
first webhook revision leaves the persisted status `"delivered"`, not
`"read"` as the claim requires. -/
theorem statusMonotonicity_counterexample :
    statusFirst (ingestV1 0 payloadC1 []).store "m1" = some "delivered" ∧
    statusFirst (ingestV1 0 payloadC1 []).store "m1" ≠ some "read" :=
  ⟨by decide, by decide⟩

/-! ## Claim C2 — idempotence of ingestion -/

/-- C2 (amended): whenever a first-revision webhook call succeeds (no
store write was rejected, so no 500 abort), re-ingesting the same
payload succeeds again, leaves the persisted store exactly as the first
call left it, reports `0` newly inserted messages, and reports the same
`updated` count.  (The second revision recounts every message as
inserted — see the counterexample; a first call aborted by a rejected
write returns 500 and reports no counts, so re-ingestion semantics
start from a successful call.)  The two normalization instants `n1`,
`n2` may differ. -/
theorem ingestV1_idempotent (p : Payload) (st st1 : Store) (ins upd : Nat)
    (n1 n2 : Int)
    (h : ingestV1E n1 p st = WebhookOut.ok ⟨st1, ins, upd⟩) :
    ingestV1E n2 p st1 = WebhookOut.ok ⟨st1, 0, upd⟩ := by
  unfold ingestV1E at h
  cases hins : insertLoopV1E (extractMessages n1 p) st 0 with
  | err st0 =>
    rw [hins] at h
    simp at h
  | ok stIns insd =>
    rw [hins] at h
    simp only [WebhookOut.ok.injEq, IngestResult.mk.injEq] at h
    obtain ⟨hst1, hinsd, hupd⟩ := h
    have hstp : st1 = pairsApply (stPairs (extractStatuses p)) stIns := by
      rw [← hst1, statusLoopV1_fst]
    have hmem : ∀ j, hasMsg st1 j = hasMsg stIns j := by
      intro j
      rw [hstp, hasMsg_pairsApply]
    have hprov : ∀ m ∈ extractMessages n2 p, ∀ id,
        strTruthy m.id = some id → hasMsg st1 id = true := by
      intro m hm id hsid
      rw [hmem]
      rcases List.mem_map.mp hm with ⟨ic, hic, rfl⟩
      have hs1 : strTruthy (mapMessage n1 ic.1 ic.2).id = some id := by
        rw [mapMessage_id_now n1 n2]
        exact hsid
      exact insertLoopV1E_provides _ st 0 _ id stIns insd
        (List.mem_map_of_mem _ hic) hs1 hins
    have hnoop : insertLoopV1E (extractMessages n2 p) st1 0
        = LoopOut.ok st1 0 :=
      insertLoopV1E_noop _ _ _ hprov
    unfold ingestV1E
    rw [hnoop]
    have hstate : (statusLoopV1 (extractStatuses p) st1 0).1 = st1 := by
      rw [statusLoopV1_fst, hstp, pairsApply_idem]
    have hcnt : updCount (extractStatuses p) st1
        = updCount (extractStatuses p) stIns :=
      updCount_congr _ _ _ hmem
    have hcount : (statusLoopV1 (extractStatuses p) st1 0).2 = upd := by
      rw [statusLoopV1_snd, hcnt, ← statusLoopV1_snd (extractStatuses p) stIns 0,
        hupd]
    simp [hstate, hcount]

/-- Witness for C2's amended theorem: a concrete successful first call,
whose re-ingestion returns the identical store with `0` inserted. -/
theorem ingestV1_idempotent_witness :
    ingestV1E 9 payloadMsgOnly
        [docOfV1 (mapMessage 5 itemM1 (ctxOfPayload payloadMsgOnly))]
      = WebhookOut.ok
          ⟨[docOfV1 (mapMessage 5 itemM1 (ctxOfPayload payloadMsgOnly))], 0, 0⟩ :=
  ingestV1_idempotent payloadMsgOnly []
    [docOfV1 (mapMessage 5 itemM1 (ctxOfPayload payloadMsgOnly))] 1 0 5 9
    (by decide)

/-- C2 counterexample: the second webhook revision increments `inserted`
for every processed message whether or not the upsert inserted, so
re-ingesting a one-message payload reports `1` (not `0`) newly inserted
messages on the second call. -/
theorem ingestTwice_counterexample :
    (ingestV2E 9 payloadMsgOnly
      (ingestV2E 5 payloadMsgOnly []).store).insertedCount ≠ some 0 ∧
    (ingestV2E 9 payloadMsgOnly
      (ingestV2E 5 payloadMsgOnly []).store).insertedCount = some 1 :=
  ⟨by decide, by decide⟩

/-! ## Claim C3 — outbound rejection -/

/-- C3 (amended): both send routes reject — persisting nothing — exactly
the falsy bodies (absent or the empty string); a whitespace-only body
such as `"   "` passes `if (!body)` and creates and persists an outgoing
message with that body. -/
theorem send_validation (wa : String) (nm : Option String) (uuid : String)
    (now : Int) (st : Store) :
    sendV1 wa none nm uuid now st = none ∧
    sendV1 wa (some "") nm uuid now st = none ∧
    sendV2 wa none uuid now st = none ∧
    sendV2 wa (some "") uuid now st = none ∧
    sendV1 wa (some "   ") nm uuid now st
      = some (st ++ [outMessage wa "   " nm uuid now],
          outMessage wa "   " nm uuid now) ∧
    sendV2 wa (some "   ") uuid now st
      = some (st ++ [outMessage wa "   " none uuid now],
          outMessage wa "   " none uuid now) := by
  have hws : ("   " : String) ≠ "" := by decide
  refine ⟨rfl, ?_, rfl, ?_, ?_, ?_⟩
  · simp [sendV1, strTruthy]
  · simp [sendV2, strTruthy]
  · simp [sendV1, strTruthy, hws]
  · simp [sendV2, strTruthy, hws]

/-- C3 counterexample: sending the whitespace-only body `"   "` passes
validation on both routes and persists one message, contradicting the
claim that it fails validation and persists nothing. -/
theorem send_whitespace_counterexample :
    (sendV1 "u1" (some "   ") none "x" 0 []).isSome = true ∧
    (sendV1 "u1" (some "   ") none "x" 0 []).map (fun r => r.1.length) = some 1 ∧
    (sendV2 "u1" (some "   ") "x" 0 []).isSome = true :=
  ⟨by decide, by decide, by decide⟩

/-! ## Claim C4 — duplicate message merge -/

/-- C4 (amended): on a duplicate delivery (a normalized message whose id
matches a persisted document) the first revision leaves the document
entirely untouched and counts nothing (the existence check precedes any
validation, so this holds for every duplicate); the second revision —
provided the duplicate's `$set` document casts, i.e. its mapped
timestamp is a valid `Date` — applies last-write-wins to the content
fields (`body`, `name`, `type`) of the first matching document, never
touches `status` (the `$set` omits it), and counts the record as
**inserted**, not updated; a duplicate carrying an Invalid-`Date`
timestamp is instead rejected by the cast (HTTP 500), neither merged
nor counted. -/
theorem duplicate_merge (st : Store) (m : MMessage) (id : String)
    (h1 : m.id = some id) (hne : id ≠ "") (h2 : hasMsg st id = true) :
    insertLoopV1E [m] st 0 = LoopOut.ok st 0 ∧
    (m.timestamp.isSome = true →
      insertLoopV2E [m] st 0 = LoopOut.ok (setContent st m) 1) ∧
    (m.timestamp = none → insertLoopV2E [m] st 0 = LoopOut.err st) ∧
    firstWith (setContent st m) id
      = (firstWith st id).map (fun pm => contentUpdate pm m) ∧
    ∀ pm : PMessage, (contentUpdate pm m).status = pm.status ∧
      (contentUpdate pm m).body = m.body ∧
      (contentUpdate pm m).name = some m.name ∧
      (contentUpdate pm m).type = m.type := by
  have hs : strTruthy m.id = some id := strTruthy_eq_some.mpr ⟨h1, hne⟩
  refine ⟨?_, ?_, ?_, firstWith_setContent st m id h1 h2, ?_⟩
  · simp [insertLoopV1E, hs, h2]
  · intro hv
    simp [insertLoopV2E, hs, h2, updateCastOk, hv]
  · intro hv
    simp [insertLoopV2E, hs, updateCastOk, hv]
  · intro pm
    exact ⟨rfl, rfl, rfl, rfl⟩

/-- Witness for C4's amended theorem at a concrete duplicate delivery
with a valid timestamp: content-merged, status kept, counted as
inserted. -/
theorem duplicate_merge_witness :
    insertLoopV2E [mmDup] [pmSeed] 0
      = LoopOut.ok (setContent [pmSeed] mmDup) 1 :=
  (duplicate_merge [pmSeed] mmDup "m1" rfl (by decide) (by decide)).2.1
    (by decide)

/-- C4 counterexample: under the first revision a duplicate delivery of
`m1` with new body `"bye"` leaves the persisted body `"hello"` (no
last-write-wins) and is counted neither as inserted nor as updated,
contradicting the claim. -/
theorem duplicate_merge_counterexample :
    (ingestV1E 1 payloadMsgOnlyB
        (ingestV1E 0 payloadMsgOnly []).store).store.map PMessage.body
      = ["hello"] ∧
    (ingestV1E 1 payloadMsgOnlyB
        (ingestV1E 0 payloadMsgOnly []).store).insertedCount = some 0 ∧
    (ingestV1E 1 payloadMsgOnlyB
        (ingestV1E 0 payloadMsgOnly []).store).updatedCount = some 0 :=
  ⟨by decide, by decide, by decide⟩

/-! ## Claim C6 — timestamp fallback -/

/-- C6 (amended): normalization never raises (`mapMessage` is a total
function) and falls back to the normalization instant exactly when the
`timestamp` field is falsy — absent, a zero number, or the empty
string.  A truthy field goes through `new Date(Number(…) * 1000)`: a
numeric value yields the corresponding instant (milliseconds truncated,
subject to `TimeClip` — in particular `some (n * 1000)` for an in-range
integer `n` of epoch seconds), while a present **non-numeric** string
yields `NaN` and hence the Invalid Date (`none`), **not** the
normalization time as the claim states; an infinite value is likewise
an Invalid Date. -/
theorem timestamp_fallback (now : Int) (m : MsgItem) (ctx : Ctx) :
    (m.timestamp = TsField.absent → (mapMessage now m ctx).timestamp = some now) ∧
    (∀ d : JSDec, m.timestamp = TsField.numVal d → d.mant = 0 →
      (mapMessage now m ctx).timestamp = some now) ∧
    (m.timestamp = TsField.strVal "" → (mapMessage now m ctx).timestamp = some now) ∧
    (∀ d : JSDec, m.timestamp = TsField.numVal d → d.mant ≠ 0 →
      (mapMessage now m ctx).timestamp = jsDateOf (JSNum.fin ⟨d.mant, d.exp + 3⟩)) ∧
    (∀ n : Int, m.timestamp = TsField.numVal ⟨n, 0⟩ → n ≠ 0 →
      (n * 1000).natAbs ≤ timeClipMax →
      (mapMessage now m ctx).timestamp = some (n * 1000)) ∧
    (∀ s : String, m.timestamp = TsField.strVal s → s ≠ "" →
      jsStringToNumber s = JSNum.nan →
      (mapMessage now m ctx).timestamp = none) ∧
    (∀ s : String, m.timestamp = TsField.strVal s → s ≠ "" →
      jsStringToNumber s = JSNum.infinite →
      (mapMessage now m ctx).timestamp = none) ∧
    (∀ (s : String) (d : JSDec), m.timestamp = TsField.strVal s → s ≠ "" →
      jsStringToNumber s = JSNum.fin d →
      (mapMessage now m ctx).timestamp = jsDateOf (JSNum.fin ⟨d.mant, d.exp + 3⟩)) := by
  refine ⟨?_, ?_, ?_, ?_, ?_, ?_, ?_, ?_⟩
  · intro h; simp [mapMessage, h, tsTruthy]
  · intro d h hz; simp [mapMessage, h, tsTruthy, hz]
  · intro h; simp [mapMessage, h, tsTruthy]
  · intro d h hz; simp [mapMessage, h, tsTruthy, hz, tsNumber, jsMul1000]
  · intro n h hn hle
    have hle' : n.natAbs * 1000 ≤ timeClipMax := by
      rw [Int.natAbs_mul] at hle
      simpa using hle
    have habs : JSDec.absLe ⟨n, (3 : Int)⟩ timeClipMax = true := by
      have hp : (10 : Nat) ^ ((3 : Int)).toNat = 1000 := by decide
      simp [JSDec.absLe, hp]
      omega
    have htr : JSDec.trunc ⟨n, (3 : Int)⟩ = n * 1000 := by
      have hp : tenPow 3 = 1000 := by decide
      simp [JSDec.trunc, hp]
    simp [mapMessage, h, tsTruthy, hn, tsNumber, jsMul1000, jsDateOf, habs, htr]
  · intro s h hs hp; simp [mapMessage, h, tsTruthy, hs, tsNumber, hp, jsMul1000, jsDateOf]
  · intro s h hs hp; simp [mapMessage, h, tsTruthy, hs, tsNumber, hp, jsMul1000, jsDateOf]
  · intro s d h hs hp; simp [mapMessage, h, tsTruthy, hs, tsNumber, hp, jsMul1000]

/-- Witness for C6's amended theorem: an absent timestamp falls back to
the normalization instant. -/
theorem timestamp_fallback_witness :
    (mapMessage 41 ({} : MsgItem) ⟨[]⟩).timestamp = some 41 :=
  (timestamp_fallback 41 {} ⟨[]⟩).1 rfl

/-- C6 counterexample: a present non-numeric timestamp string (`"soon"`)
produces the Invalid Date (`none`), not the normalization time `777`,
contradicting the claim's "absent or non-numeric → normalization
time". -/
theorem timestamp_nonNumeric_counterexample :
    (mapMessage 777 itemBadTs ⟨[]⟩).timestamp = none ∧
    (mapMessage 777 itemBadTs ⟨[]⟩).timestamp ≠ some 777 :=
  ⟨by decide, by decide⟩

/-! ## Claim C7 — unreconcilable status references -/

/-- C7 (amended): a status whose id matches no persisted message is
skipped without error, but it is not counted as "skipped" — no skipped
counter exists (`IngestResult` carries only `inserted` and `updated`):
the first revision leaves the store and the `updated` count unchanged,
while the second revision still increments `updated`. -/
theorem unmatched_status (st : Store) (s : MStatus) (id : String)
    (h1 : s.id = some id) (hne : id ≠ "") (h2 : hasMsg st id = false) :
    statusLoopV1 [s] st 0 = (st, 0) ∧ statusLoopV2 [s] st 0 = (st, 1) := by
  have hs : strTruthy s.id = some id := strTruthy_eq_some.mpr ⟨h1, hne⟩
  have hset := setStatus_not_found st id s.status h2
  constructor
  · simp [statusLoopV1, hs, h2, hset]
  · simp [statusLoopV2, hs, hset]

/-- Witness for C7's amended theorem on the empty store. -/
theorem unmatched_status_witness :
    statusLoopV1 [mapStatus stUnknownRef] [] 0 = ([], 0) ∧
    statusLoopV2 [mapStatus stUnknownRef] [] 0 = ([], 1) :=
  unmatched_status [] (mapStatus stUnknownRef) "zzz" (by decide) (by decide)
    (by decide)

/-- C7 counterexample: ingesting a payload whose only record is a status
for the unknown id `zzz` leaves the store empty but the second revision
reports it in `updated` (`1`), i.e. it is counted as updated rather than
skipped, and no result carries a `skipped` count. -/
theorem unmatched_status_counterexample :
    (ingestV2 0 payloadC7 []).updated = 1 ∧
    (ingestV2 0 payloadC7 []).store = [] ∧
    (ingestV1 0 payloadC7 []).updated = 0 ∧
    (ingestV1 0 payloadC7 []).store = [] :=
  ⟨by decide, by decide, by decide, by decide⟩

/-! ## Claim C8 — status vocabulary forward-compatibility -/

/-- C8 (amended): the derived status equals the item's status tag
whenever the tag is a present **nonempty** string — including values
outside `{sent, delivered, read}`, which the store applies verbatim (no
validators run on the update path) — and defaults to `"unknown"` when
the tag is absent **or the empty string** (both are falsy under
`s.status || 'unknown'`). -/
theorem status_vocabulary (s : StatusItem) (st : Store) (id v : String) :
    (s.status = none → (mapStatus s).status = "unknown") ∧
    (s.status = some "" → (mapStatus s).status = "unknown") ∧
    (∀ t : String, s.status = some t → t ≠ "" → (mapStatus s).status = t) ∧
    (hasMsg st id = true → statusFirst (setStatus st id v) id = some v) := by
  refine ⟨?_, ?_, ?_, ?_⟩
  · intro h; simp [mapStatus, h, strTruthy]
  · intro h; simp [mapStatus, h, strTruthy]
  · intro t ht hne; simp [mapStatus, ht, strTruthy, hne]
  · intro h; exact statusFirst_setStatus st id v h

/-- Witness for C8's amended theorem: a tag outside the schema
vocabulary passes through verbatim. -/
theorem status_vocabulary_witness :
    (mapStatus { status := some "played" }).status = "played" :=
  (status_vocabulary { status := some "played" } [] "" "").2.2.1 "played" rfl
    (by decide)

/-- C8 counterexample: a present but empty status tag is mapped to
`"unknown"`, so `"unknown"` does not arise only when the tag is absent
and the empty tag is not passed through verbatim. -/
theorem status_emptyTag_counterexample :
    ({ status := some "" } : StatusItem).status.isSome = true ∧
    (mapStatus { status := some "" }).status = "unknown" ∧
    (mapStatus { status := some "" }).status ≠ "" :=
  ⟨by decide, by decide, by decide⟩

/-! ## Claim C10 — identifier fallback -/

theorem jsOr_eq_none_iff (a b : Option String) :
    jsOr a b = none ↔ a = none ∧ b = none := by
  cases a <;> simp [jsOr]

/-- C10 (amended): the record identifier falls back from `id` to
`message_id` when `id` is falsy (absent **or empty**); the identifier is
`null` exactly when both fields are falsy; and the ingestion loops skip
exactly the null-identifier records before touching the store — a record
with a truthy identifier proceeds to the store lookup. -/
theorem id_fallback (now : Int) (mi : MsgItem) (ctx : Ctx) (si : StatusItem) :
    ((mapMessage now mi ctx).id = none ↔
      (strTruthy mi.id = none ∧ strTruthy mi.message_id = none)) ∧
    (∀ s : String, mi.id = some s → s ≠ "" →
      (mapMessage now mi ctx).id = some s) ∧
    (strTruthy mi.id = none →
      (mapMessage now mi ctx).id = strTruthy mi.message_id) ∧
    ((mapStatus si).id = none ↔
      (strTruthy si.id = none ∧ strTruthy si.message_id = none)) ∧
    (∀ s : String, si.id = some s → s ≠ "" → (mapStatus si).id = some s) ∧
    (strTruthy si.id = none → (mapStatus si).id = strTruthy si.message_id) ∧
    (∀ (m : MMessage) (rest : List MMessage) (st : Store) (ins : Nat),
      m.id = none → insertLoopV1 (m :: rest) st ins = insertLoopV1 rest st ins) ∧
    (∀ (s : MStatus) (rest : List MStatus) (st : Store) (upd : Nat),
      s.id = none → statusLoopV1 (s :: rest) st upd = statusLoopV1 rest st upd) ∧
    (∀ (m : MMessage) (rest : List MMessage) (st : Store) (ins : Nat)
      (id : String), m.id = some id → id ≠ "" → hasMsg st id = false →
      insertLoopV1 (m :: rest) st ins
        = insertLoopV1 rest (st ++ [docOfV1 m]) (ins + 1)) := by
  refine ⟨jsOr_eq_none_iff _ _, ?_, ?_, jsOr_eq_none_iff _ _, ?_, ?_, ?_, ?_, ?_⟩
  · intro s h hne
    have ht : strTruthy mi.id = some s := strTruthy_eq_some.mpr ⟨h, hne⟩
    show jsOr (strTruthy mi.id) (strTruthy mi.message_id) = some s
    rw [ht]
    rfl
  · intro h
    show jsOr (strTruthy mi.id) (strTruthy mi.message_id) = strTruthy mi.message_id
    rw [h]
    rfl
  · intro s h hne
    have ht : strTruthy si.id = some s := strTruthy_eq_some.mpr ⟨h, hne⟩
    show jsOr (strTruthy si.id) (strTruthy si.message_id) = some s
    rw [ht]
    rfl
  · intro h
    show jsOr (strTruthy si.id) (strTruthy si.message_id) = strTruthy si.message_id
    rw [h]
    rfl
  · intro m rest st ins h
    simp [insertLoopV1, h, strTruthy]
  · intro s rest st upd h
    simp [statusLoopV1, h, strTruthy]
  · intro m rest st ins id h1 h2 h3
    simp [insertLoopV1, strTruthy_eq_some.mpr ⟨h1, h2⟩, h3]

/-- Witness for C10's amended theorem: a present nonempty `id` survives
normalization unchanged. -/
theorem id_fallback_witness :
    (mapMessage 0 itemM1 ⟨[]⟩).id = some "m1" :=
  (id_fallback 0 itemM1 ⟨[]⟩ stSent).2.1 "m1" rfl (by decide)

/-- C10 counterexample: an item whose `id` and `message_id` are both
present but empty still normalizes to a `null` identifier, so "only when
both fields are absent is the identifier null" fails. -/
theorem id_bothEmpty_counterexample :
    ({ id := some "", message_id := some "" } : MsgItem).id.isSome = true ∧
    ({ id := some "", message_id := some "" } : MsgItem).message_id.isSome = true ∧
    (mapMessage 0 { id := some "", message_id := some "" } ⟨[]⟩).id = none :=
  ⟨by decide, by decide, by decide⟩

/-! ## Claim C5 — multi-shape additive extraction -/

theorem foldl_push_map {α β : Type} (f : β → α) (l : List β) (acc : List α) :
    l.foldl (fun a x => a ++ [f x]) acc = acc ++ l.map f := by
  induction l generalizing acc with
  | nil => simp
  | cons x t ih => rw [List.foldl_cons, ih]; simp

theorem changeMsgFold_eq (cs : List Change) (acc : List (MsgItem × Ctx)) :
    cs.foldl (fun a c =>
      let v := c.value.getD {}
      (v.messages.getD []).foldl (fun a m => a ++ [(m, ctxOfValue v)]) a) acc
    = acc ++ cs.flatMap changeItems := by
  induction cs generalizing acc with
  | nil => simp
  | cons c t ih =>
    rw [List.foldl_cons, ih]
    simp [foldl_push_map, changeItems, List.append_assoc]

theorem entryMsgFold_eq (es : List Entry) (acc : List (MsgItem × Ctx)) :
    entryMsgFold es acc = acc ++ es.flatMap entryItems := by
  induction es generalizing acc with
  | nil => simp [entryMsgFold]
  | cons e t ih =>
    have step : entryMsgFold (e :: t) acc
        = entryMsgFold t ((e.changes.getD []).foldl (fun a c =>
            let v := c.value.getD {}
            (v.messages.getD []).foldl (fun a m => a ++ [(m, ctxOfValue v)]) a)
          acc) := rfl
    rw [step, ih, changeMsgFold_eq]
    simp [entryItems, List.append_assoc]

theorem changeStFold_eq (cs : List Change) (acc : List StatusItem) :
    cs.foldl (fun a c =>
      let v := c.value.getD {}
      (v.statuses.getD []).foldl (fun a s => a ++ [s]) a) acc
    = acc ++ cs.flatMap stChangeItems := by
  induction cs generalizing acc with
  | nil => simp
  | cons c t ih =>
    rw [List.foldl_cons, ih]
    have hpush : ∀ (l a : List StatusItem),
        l.foldl (fun a s => a ++ [s]) a = a ++ l := by
      intro l
      induction l with
      | nil => intro a; simp
      | cons x t iht =>
        intro a
        rw [List.foldl_cons, iht]
        simp
    simp [hpush, stChangeItems, List.append_assoc]

theorem entryStFold_eq (es : List Entry) (acc : List StatusItem) :
    entryStFold es acc = acc ++ es.flatMap entryStItems := by
  induction es generalizing acc with
  | nil => simp [entryStFold]
  | cons e t ih =>
    have step : entryStFold (e :: t) acc
        = entryStFold t ((e.changes.getD []).foldl (fun a c =>
            let v := c.value.getD {}
            (v.statuses.getD []).foldl (fun a s => a ++ [s]) a) acc) := rfl
    rw [step, ih, changeStFold_eq]
    simp [entryStItems, List.append_assoc]

theorem extractMessages_decomp (now : Int) (p : Payload) :
    extractMessages now p
      = specEntryMessages now p ++ specMetaMessages now p
        ++ specFlatMessages now p := by
  unfold extractMessages msgItems
  obtain ⟨pe, pmd, pms, pss, pc⟩ := p
  rcases pe with _ | es1 <;> rcases pms with _ | ms <;>
    rcases pmd with _ | ⟨_ | es2⟩ <;>
    simp [entryMsgFold_eq, foldl_push_map, List.append_assoc,
      specEntryMessages, specMetaMessages, specFlatMessages,
      List.map_flatMap, List.map_map, entryItems, changeItems,
      Function.comp_def]

theorem extractStatuses_decomp (p : Payload) :
    extractStatuses p
      = specEntryStatuses p ++ specMetaStatuses p ++ specFlatStatuses p := by
  unfold extractStatuses statusItems
  obtain ⟨pe, pmd, pms, pss, pc⟩ := p
  rcases pe with _ | es1 <;> rcases pss with _ | ss <;>
    rcases pmd with _ | ⟨_ | es2⟩ <;>
    simp [entryStFold_eq, foldl_push_map, List.append_assoc,
      specEntryStatuses, specMetaStatuses, specFlatStatuses,
      List.map_flatMap, List.map_map, entryStItems, stChangeItems,
      Function.comp_def]

/-- C5 (confirmed): extraction is additive across the three envelope
shapes, examined in the fixed priority order standard `entry[]`, then
`metaData.entry[]`, then the flat arrays; each shape contributes its
items in source order, so a payload matching several shapes
simultaneously yields the concatenation of every shape's records — in
particular a payload with both a top-level `entry[]` structure and a
flat `messages[]` (or `statuses[]`) array yields the records of both. -/
theorem multiShape_extraction (now : Int) (p : Payload) :
    extractMessages now p
      = specEntryMessages now p ++ specMetaMessages now p
        ++ specFlatMessages now p ∧
    extractStatuses p
      = specEntryStatuses p ++ specMetaStatuses p ++ specFlatStatuses p :=
  ⟨extractMessages_decomp now p, extractStatuses_decomp p⟩

/-! ## Claim C9 — conversation listing -/

theorem dedupByKey_sublist (l : Store) (seen : List String) :
    List.Sublist (dedupByKey l seen) l := by
  induction l generalizing seen with
  | nil => simp [dedupByKey]
  | cons y t ih =>
    by_cases hseen : y.wa_id ∈ seen
    · simp only [dedupByKey, if_pos hseen]
      exact List.Sublist.cons y (ih seen)
    · simp only [dedupByKey, if_neg hseen]
      exact List.Sublist.cons₂ y (ih (y.wa_id :: seen))

theorem mem_dedupByKey_not_seen (l : Store) (seen : List String)
    (m : PMessage) (hm : m ∈ dedupByKey l seen) : m.wa_id ∉ seen := by
  induction l generalizing seen with
  | nil => simp [dedupByKey] at hm
  | cons y t ih =>
    by_cases hseen : y.wa_id ∈ seen
    · simp only [dedupByKey, if_pos hseen] at hm
      exact ih seen hm
    · simp only [dedupByKey, if_neg hseen] at hm
      rcases List.mem_cons.mp hm with rfl | hm'
      · exact hseen
      · intro hc
        exact ih (y.wa_id :: seen) hm' (List.mem_cons_of_mem _ hc)

theorem dedupByKey_max (l : Store) (seen : List String) (m : PMessage)
    (hs : List.Sorted (fun a b => tsVal b ≤ tsVal a) l)
    (hm : m ∈ dedupByKey l seen) :
    ∀ x ∈ l, x.wa_id = m.wa_id → tsVal x ≤ tsVal m := by
  induction l generalizing seen with
  | nil => simp [dedupByKey] at hm
  | cons y t ih =>
    rw [List.sorted_cons] at hs
    obtain ⟨hy, ht⟩ := hs
    by_cases hseen : y.wa_id ∈ seen
    · simp only [dedupByKey, if_pos hseen] at hm
      intro x hx hxk
      rcases List.mem_cons.mp hx with rfl | hx'
      · exfalso
        apply mem_dedupByKey_not_seen t seen m hm
        rw [← hxk]
        exact hseen
      · exact ih seen ht hm x hx' hxk
    · simp only [dedupByKey, if_neg hseen] at hm
      rcases List.mem_cons.mp hm with rfl | hm'
      · intro x hx hxk
        rcases List.mem_cons.mp hx with rfl | hx'
        · exact le_refl _
        · exact hy x hx'
      · intro x hx hxk
        rcases List.mem_cons.mp hx with rfl | hx'
        · exfalso
          apply mem_dedupByKey_not_seen t (x.wa_id :: seen) m hm'
          rw [← hxk]
          exact List.mem_cons_self _ _
        · exact ih (y.wa_id :: seen) ht hm' x hx' hxk

theorem dedupByKey_complete (l : Store) (seen : List String) (x : PMessage)
    (hx : x ∈ l) :
    x.wa_id ∈ seen ∨ ∃ y ∈ dedupByKey l seen, y.wa_id = x.wa_id := by
  induction l generalizing seen with
  | nil => cases hx
  | cons y t ih =>
    by_cases hseen : y.wa_id ∈ seen
    · simp only [dedupByKey, if_pos hseen]
      rcases List.mem_cons.mp hx with rfl | hx'
      · exact Or.inl hseen
      · exact ih seen hx'
    · simp only [dedupByKey, if_neg hseen]
      rcases List.mem_cons.mp hx with rfl | hx'
      · exact Or.inr ⟨x, List.mem_cons_self _ _, rfl⟩
      · rcases ih (y.wa_id :: seen) hx' with h | ⟨z, hz, hzk⟩
        · rcases List.mem_cons.mp h with h' | h'
          · exact Or.inr ⟨y, List.mem_cons_self _ _, h'.symm⟩
          · exact Or.inl h'
        · exact Or.inr ⟨z, List.mem_cons_of_mem _ hz, hzk⟩

theorem dedupByKey_keys_nodup (l : Store) (seen : List String) :
    ((dedupByKey l seen).map (fun m => m.wa_id)).Nodup
      ∧ ∀ k ∈ (dedupByKey l seen).map (fun m => m.wa_id), k ∉ seen := by
  induction l generalizing seen with
  | nil => simp [dedupByKey]
  | cons y t ih =>
    by_cases hseen : y.wa_id ∈ seen
    · simp only [dedupByKey, if_pos hseen]
      exact ih seen
    · simp only [dedupByKey, if_neg hseen, List.map_cons]
      obtain ⟨hnd, hns⟩ := ih (y.wa_id :: seen)
      refine ⟨List.nodup_cons.mpr ⟨?_, hnd⟩, ?_⟩
      · intro hc
        exact (hns _ hc) (List.mem_cons_self _ _)
      · intro k hk
        rcases List.mem_cons.mp hk with rfl | hk'
        · exact hseen
        · intro hc
          exact (hns k hk') (List.mem_cons_of_mem _ hc)

/-- C9 (amended): the **second** revision's conversation listing is as
the claim states — for each distinct `wa_id` it returns an entry whose
message belongs to that conversation and carries its greatest timestamp,
every stored conversation appears exactly once, and the entries are
ordered by that timestamp descending.  The **first** revision instead
picks `$last` in collection order with no preceding sort, so its
representative is the insertion-order-last message, not the
greatest-timestamp one (see the counterexample). -/
theorem conversationsV2_correct (st : Store) :
    (∀ pr ∈ conversationsV2 st,
        pr.2 ∈ st ∧ pr.2.wa_id = pr.1 ∧
        ∀ m ∈ st, m.wa_id = pr.1 → tsVal m ≤ tsVal pr.2) ∧
    List.Sorted (fun a b => tsVal b.2 ≤ tsVal a.2) (conversationsV2 st) ∧
    (∀ m ∈ st, ∃ pr ∈ conversationsV2 st, pr.1 = m.wa_id) ∧
    ((conversationsV2 st).map Prod.fst).Nodup := by
  have hconv : conversationsV2 st
      = List.insertionSort (fun a b => tsVal b.2 ≤ tsVal a.2)
          ((dedupByKey
              (List.insertionSort (fun a b => tsVal b ≤ tsVal a) st) []).map
            (fun m => (m.wa_id, m))) := rfl
  have hsorted : List.Sorted (fun a b : PMessage => tsVal b ≤ tsVal a)
      (List.insertionSort (fun a b => tsVal b ≤ tsVal a) st) :=
    List.sorted_insertionSort _ st
  refine ⟨?_, ?_, ?_, ?_⟩
  · intro pr hpr
    rw [hconv, List.mem_insertionSort] at hpr
    rcases List.mem_map.mp hpr with ⟨m, hm, rfl⟩
    have hmemS : m ∈ List.insertionSort (fun a b => tsVal b ≤ tsVal a) st :=
      (dedupByKey_sublist _ _).subset hm
    refine ⟨(List.mem_insertionSort _).mp hmemS, rfl, ?_⟩
    intro x hx hxk
    exact dedupByKey_max _ [] m hsorted hm x
      ((List.mem_insertionSort _).mpr hx) hxk
  · rw [hconv]
    exact List.sorted_insertionSort _ _
  · intro m hm
    have hmS : m ∈ List.insertionSort (fun a b => tsVal b ≤ tsVal a) st :=
      (List.mem_insertionSort _).mpr hm
    rcases dedupByKey_complete _ [] m hmS with h | ⟨y, hy, hyk⟩
    · simp at h
    · refine ⟨(y.wa_id, y), ?_, hyk⟩
      rw [hconv, List.mem_insertionSort]
      exact List.mem_map_of_mem _ hy
  · rw [hconv]
    have hperm := (List.perm_insertionSort
      (fun a b : String × PMessage => tsVal b.2 ≤ tsVal a.2)
      ((dedupByKey
          (List.insertionSort (fun a b => tsVal b ≤ tsVal a) st) []).map
        (fun m => (m.wa_id, m)))).map Prod.fst
    rw [hperm.nodup_iff, List.map_map]
    have hcmp : (Prod.fst ∘ fun m : PMessage => (m.wa_id, m))
        = fun m : PMessage => m.wa_id := rfl
    rw [hcmp]
    exact (dedupByKey_keys_nodup _ []).1

/-- Witness for C9's amended theorem: on the concrete store
`[pmA5, pmA3]` the listed representative of conversation `A` dominates
every stored message of `A`. -/
theorem conversationsV2_correct_witness :
    pmA5 ∈ ([pmA5, pmA3] : Store) ∧ pmA5.wa_id = "A" ∧
    ∀ m ∈ ([pmA5, pmA3] : Store), m.wa_id = "A" → tsVal m ≤ tsVal pmA5 := by
  have h := (conversationsV2_correct [pmA5, pmA3]).1 ("A", pmA5) (by decide)
  exact ⟨h.1, h.2.1, h.2.2⟩

/-- C9 counterexample: with conversation `A` holding messages stored in
order `[t = 5, t = 3]`, the first revision's listing returns the
insertion-order-last message (`t = 3`) as the conversation's
representative although a greater-timestamp message (`t = 5`) exists, so
the listing does not return the Message with the greatest
`occurredAt`. -/
theorem conversations_lastNotGreatest_counterexample :
    conversationsV1 [pmA5, pmA3] = [("A", pmA3)] ∧
    pmA5 ∈ ([pmA5, pmA3] : Store) ∧
    pmA5.wa_id = "A" ∧
    tsVal pmA3 < tsVal pmA5 :=
  ⟨by decide, by decide, by decide, by decide⟩

end Whatsapp
